import Mathlib

/-!
Shallow embedding of the two ingestion scripts of the Adamus repository:
scripts/adamus-index-images.py and scripts/adamus-index-pdf.py.

Python strings are modelled as lists of Unicode scalar values
(Lean Char).  Every definition below is translated from the source; the
namespaces Images and Pdf hold the per-script definitions with their
source names, shared helpers live at the top level.
-/

namespace Adamus

/-- A Python string, modelled as its list of Unicode code points. -/
abbrev Str := List Char

/-- The characters on which Python str.splitlines splits
(the line-boundary set of CPython). -/
def isLineBreak (c : Char) : Bool :=
  c = '\n' || c = '\r' || c = '\x0b' || c = '\x0c' ||
  c = '\x1c' || c = '\x1d' || c = '\x1e' || c = '\u0085' ||
  c = '\u2028' || c = '\u2029'

/-- Python whitespace, as recognised by str.strip and str.isspace:
space, tab, the line-break set, the C0 separators, and the Unicode
space characters. -/
def pyIsSpace (c : Char) : Bool :=
  c = ' ' || c = '\t' || isLineBreak c || c = '\x1f' ||
  c = '\u00a0' || c = '\u1680' ||
  (0x2000 ≤ c.toNat && c.toNat ≤ 0x200a) ||
  c = '\u202f' || c = '\u205f' || c = '\u3000'

/-- Python str.strip(): drop whitespace from both ends. -/
def pyStrip (l : Str) : Str :=
  ((l.dropWhile pyIsSpace).reverse.dropWhile pyIsSpace).reverse

/-- Python s[a:b] for 0 ≤ a ≤ b (clamped to the length, as in Python). -/
def pySlice (l : Str) (a b : Nat) : Str :=
  (l.drop a).take (b - a)

theorem pyStrip_length_le (l : Str) : (pyStrip l).length ≤ l.length := by
  unfold pyStrip
  calc ((l.dropWhile pyIsSpace).reverse.dropWhile pyIsSpace).reverse.length
      = ((l.dropWhile pyIsSpace).reverse.dropWhile pyIsSpace).length := by
        rw [List.length_reverse]
    _ ≤ (l.dropWhile pyIsSpace).reverse.length :=
        (List.dropWhile_sublist pyIsSpace).length_le
    _ = (l.dropWhile pyIsSpace).length := by rw [List.length_reverse]
    _ ≤ l.length := (List.dropWhile_sublist pyIsSpace).length_le

theorem pyStrip_subset (l : Str) : ∀ c ∈ pyStrip l, c ∈ l := by
  intro c hc
  unfold pyStrip at hc
  rw [List.mem_reverse] at hc
  have h2 := (List.dropWhile_sublist pyIsSpace).subset hc
  rw [List.mem_reverse] at h2
  exact (List.dropWhile_sublist pyIsSpace).subset h2

theorem pyStrip_eq_nil_of_all_space (l : Str)
    (h : ∀ c ∈ l, pyIsSpace c = true) : pyStrip l = [] := by
  unfold pyStrip
  have h1 : l.dropWhile pyIsSpace = [] := by
    rw [List.dropWhile_eq_nil_iff]
    intro x hx
    exact h x hx
  rw [h1]
  rfl

end Adamus

namespace Adamus.Images

/-- Translation of sanitize_text from adamus-index-images.py, step
replace of the two-character sequence carriage-return newline by a
single newline.  Python str.replace scans left to right over
non-overlapping occurrences. -/
def replaceCRLF : Str → Str
  | '\r' :: '\n' :: rest => '\n' :: replaceCRLF rest
  | c :: rest => c :: replaceCRLF rest
  | [] => []

/-- The character class removed by the re.sub in sanitize_text:
codepoints 0x00 to 0x08, 0x0B, 0x0C, and 0x0E to 0x1F. -/
def removedCtrl (c : Char) : Bool :=
  c.toNat ≤ 0x08 || c.toNat = 0x0B || c.toNat = 0x0C ||
  (0x0E ≤ c.toNat && c.toNat ≤ 0x1F)

/-- sanitize_text from adamus-index-images.py.  The argument is
Optional: callers may pass a missing value, which (like the empty
string) is falsy.  The utf-8 encode-decode round trip with errors
ignored is the identity on sequences of Unicode scalar values, which is
what Str models, so it does not appear. -/
def sanitize_text (value : Option Str) : Str :=
  match value with
  | none => []
  | some v =>
    if v = [] then []
    else ((replaceCRLF v).map (fun c => if c = '\r' then '\n' else c)).filter
      (fun c => !removedCtrl c)

end Adamus.Images

namespace Adamus.Images

/-- Decimal rendering of a positive counter, as Python f-string
formatting produces it. -/
def decimalDigits (k : Nat) : Str :=
  ((Nat.digits 10 k).map (fun d => Char.ofNat (48 + d))).reverse

/-- The candidate delimiter tags tried by sql_literal in
adamus-index-images.py: tag 0 is the dollar-quoted base tag, tag k for
positive k appends an underscore and the counter. -/
def adamusTag (k : Nat) : Str :=
  if k = 0 then ("$adamus$").toList
  else ("$adamus_").toList ++ decimalDigits k ++ ['$']

theorem adamusTag_length_pos (k : Nat) (hk : k ≠ 0) :
    (adamusTag k).length = 9 + (Nat.digits 10 k).length := by
  simp only [adamusTag, if_neg hk, decimalDigits, List.length_append,
    List.length_reverse, List.length_map]
  norm_num
  omega

theorem exists_tag_avoiding (safe : Str) :
    ∃ k, ¬ adamusTag k <:+: safe := by
  refine ⟨10 ^ (safe.length + 1), fun h => ?_⟩
  have hk : (10 : Nat) ^ (safe.length + 1) ≠ 0 := by positivity
  have hlen := h.length_le
  rw [adamusTag_length_pos _ hk,
    Nat.digits_len 10 _ (by norm_num) hk,
    Nat.log_pow (by norm_num)] at hlen
  omega

/-- sql_literal from adamus-index-images.py.  The while loop increments
the counter until the tag no longer occurs in the sanitized content, so
it returns the least counter whose tag is not an infix of the content;
the content is wrapped between two copies of that tag. -/
def sql_literal (value : Str) : Str :=
  let safe := sanitize_text (some value)
  let tag := adamusTag (Nat.find (exists_tag_avoiding safe))
  tag ++ safe ++ tag

end Adamus.Images

namespace Adamus.Pdf

/-- sql_literal from adamus-index-pdf.py: strips NUL characters, then
tries exactly three fixed tags in order, keeping the last one even when
it also occurs in the content. -/
def sql_literal (value : Str) : Str :=
  let safe := value.filter (fun c => c ≠ '\x00')
  let tag :=
    if ("$adamus$").toList <:+: safe then
      if ("$adamus_text$").toList <:+: safe then ("$adamus_chunk$").toList
      else ("$adamus_text$").toList
    else ("$adamus$").toList
  tag ++ safe ++ tag

end Adamus.Pdf

namespace Adamus

/-- The start of the next hard-split window: step back by overlap from
the window end when that still advances past the current start, else
continue at the window end (the Python conditional expression in the
loop). -/
def nextStart (p : Str) (maxLen overlap start : Nat) : Nat :=
  let e := min (start + maxLen) p.length
  if start < e - overlap then e - overlap else e

/-- One window of the hard-split loop ends at start + maxLen, clamped
to the paragraph length. -/
def windowEnd (p : Str) (maxLen start : Nat) : Nat :=
  min (start + maxLen) p.length

/-- The inner while loop of chunk_text (identical in both scripts): a
paragraph longer than maxLen is hard-split into windows from start to
windowEnd, the next start given by nextStart.  The loop is modelled
with explicit fuel; fuel of p.length - start suffices whenever maxLen
is at least 1 (proved below). -/
def hardSplit (p : Str) (maxLen overlap : Nat) : Nat → Nat → List Str
  | _start, 0 => []
  | start, fuel + 1 =>
    if start < p.length then
      pySlice p start (windowEnd p maxLen start) ::
        hardSplit p maxLen overlap (nextStart p maxLen overlap start) fuel
    else []

/-- The flush step of chunk_text: append the running buffer to the
chunk list when it is non-empty (the Python if current:
chunks.append(current)). -/
def flushCurrent (current : Str) (chunks : List Str) : List Str :=
  if current = [] then chunks else chunks ++ [current]

/-- The paragraph-accumulation loop of chunk_text (identical in both
scripts): greedily merge paragraphs into the running buffer while the
merged length fits in maxLen, flushing the buffer on overflow and
hard-splitting oversized paragraphs. -/
def chunkLoop (maxLen overlap : Nat) : List Str → Str → List Str → List Str
  | [], current, chunks => flushCurrent current chunks
  | p :: ps, current, chunks =>
    if current.length + p.length + 1 ≤ maxLen then
      chunkLoop maxLen overlap ps (pyStrip (current ++ '\n' :: p)) chunks
    else if p.length ≤ maxLen then
      chunkLoop maxLen overlap ps p (flushCurrent current chunks)
    else
      chunkLoop maxLen overlap ps []
        (flushCurrent current chunks ++ hardSplit p maxLen overlap 0 p.length)

/-- Helper for splitBlank: scans the text, treating each maximal run of
two or more newlines as a separator, as re.split with the pattern of
two-or-more newlines does. -/
def splitBlankGo (l : Str) (acc : Str) : List Str :=
  match l with
  | [] => [acc.reverse]
  | c :: rest =>
    if c = '\n' ∧ rest.head? = some '\n' then
      acc.reverse :: splitBlankGo (rest.dropWhile (fun x => x = '\n')) []
    else
      splitBlankGo rest (c :: acc)
termination_by l.length
decreasing_by
  · have := (List.dropWhile_sublist (fun x => x = '\n') (l := rest)).length_le
    simp only [List.length_cons]
    omega
  · simp

/-- Python re.split on two-or-more newlines, used by the image script
to cut text into paragraphs. -/
def splitBlank (l : Str) : List Str := splitBlankGo l []

/-- Helper for pySplitlines: the text following one line break, where a
carriage return followed by a newline counts as a single break and
consumes both characters. -/
def afterBreak (c : Char) (rest : Str) : Str :=
  if c = '\r' ∧ rest.head? = some '\n' then rest.tail else rest

theorem afterBreak_sublist (c : Char) (rest : Str) :
    (afterBreak c rest).Sublist rest := by
  unfold afterBreak
  split
  · exact List.tail_sublist rest
  · exact List.Sublist.refl rest

/-- Helper for pySplitlines: cuts at every line-break character,
treating a carriage return followed by a newline as a single break, and
producing no trailing empty line. -/
def splitlinesGo (l : Str) (acc : Str) : List Str :=
  match l with
  | [] => [acc.reverse]
  | c :: rest =>
    if isLineBreak c then
      acc.reverse ::
        (if afterBreak c rest = [] then [] else splitlinesGo (afterBreak c rest) [])
    else splitlinesGo rest (c :: acc)
termination_by l.length
decreasing_by
  · have := (afterBreak_sublist c rest).length_le
    simp only [List.length_cons]
    omega
  · simp

/-- Python str.splitlines, used by the PDF script to cut text into
paragraphs (one per line). -/
def pySplitlines (l : Str) : List Str :=
  if l = [] then [] else splitlinesGo l []

end Adamus

namespace Adamus.Images

/-- chunk_text from adamus-index-images.py: empty text yields no
chunks; otherwise the text is split into stripped non-empty paragraphs
at blank lines and fed to the accumulation loop. -/
def chunk_text (text : Str) (maxLen overlap : Nat) : List Str :=
  if text = [] then []
  else chunkLoop maxLen overlap
    (((splitBlank text).map pyStrip).filter (fun p => p ≠ [])) [] []

end Adamus.Images

namespace Adamus.Pdf

/-- chunk_text from adamus-index-pdf.py: identical to the image variant
except that paragraphs are the stripped non-empty lines of the text. -/
def chunk_text (text : Str) (maxLen overlap : Nat) : List Str :=
  if text = [] then []
  else chunkLoop maxLen overlap
    (((pySplitlines text).map pyStrip).filter (fun p => p ≠ [])) [] []

end Adamus.Pdf

namespace Adamus

/-- Outcome of one HTTP POST to the SQL endpoint, as seen by sql_query:
a body on success, an HTTPError with a status code, or any other
failure (timeout, connection error), which urllib raises as an
exception that is not an HTTPError. -/
inductive HttpOutcome where
  | success (body : Str)
  | httpError (code : Nat)
  | netFailure
deriving DecidableEq, Repr

/-- The status codes sql_query treats as retryable:
401, 429, 500, 502, 503, 504 (identical set in both scripts). -/
def retryCodes (c : Nat) : Bool :=
  c = 401 || c = 429 || c = 500 || c = 502 || c = 503 || c = 504

/-- The error sql_query propagates to its caller: a raised HTTPError
with its status code, or a raised non-HTTP failure. -/
inductive SqlError where
  | http (code : Nat)
  | net
deriving DecidableEq, Repr

/-- The attempt loop of sql_query (identical in both scripts), running
attempt numbers attempt, attempt+1, ... with the given number of
further attempts remaining: respond gives the outcome of each numbered
attempt.  Returns the propagated result, the number of attempts made,
and the list of backoff multipliers slept between attempts (the sleep
before the retry after attempt a is backoff times a+1 seconds).  An
HTTPError with a retryable code retries while attempts remain; every
other HTTPError, and every non-HTTP failure, propagates at once. -/
def sqlQueryGo (respond : Nat → HttpOutcome) :
    Nat → Nat → Except SqlError Str × Nat × List Nat
  | attempt, remaining =>
    match respond attempt, remaining with
    | .success b, _ => (Except.ok b, attempt + 1, [])
    | .netFailure, _ => (Except.error SqlError.net, attempt + 1, [])
    | .httpError c, 0 => (Except.error (SqlError.http c), attempt + 1, [])
    | .httpError c, rem + 1 =>
      if retryCodes c then
        let r := sqlQueryGo respond (attempt + 1) rem
        (r.1, r.2.1, (attempt + 1) :: r.2.2)
      else (Except.error (SqlError.http c), attempt + 1, [])

/-- sql_query from both scripts, modelled over an oracle giving each
numbered attempt its outcome (the default retry count in the source is
5, the default backoff 1.5 seconds).  The remaining-attempt count fed
to the loop is retries, so the retry condition of the source, attempt
strictly below retries, holds exactly while attempts remain. -/
def sql_query (respond : Nat → HttpOutcome) (retries : Nat) :
    Except SqlError Str × Nat × List Nat :=
  sqlQueryGo respond 0 retries

/-- A row of the existing-pages query, as the reconciliation loop reads
it: the count of stored chunks for that page. -/
structure PageRow where
  chunk_count : Int
deriving DecidableEq, Repr

/-- The observable actions the driver can take for one input page:
text extraction (OCR call or PDF page extraction), the page upsert, the
chunk delete, and one insert per chunk. -/
inductive Effect where
  | extractText (page : Nat)
  | upsertPage (page : Nat)
  | deleteChunks (page : Nat)
  | insertChunk (page : Nat) (cidx : Nat)
deriving DecidableEq, Repr

end Adamus

namespace Adamus.Images

/-- The record the image loop matches for a page: the page-number map
first, else the image-uri map, as the Python or of the two lookups. -/
def firstMatch (byPage : Nat → Option PageRow) (byUri : Str → Option PageRow)
    (idx : Nat) (uri : Str) : Option PageRow :=
  match byPage idx with
  | some row => some row
  | none => byUri uri

/-- The skip condition of the image loop: a record was matched, it has
a positive chunk count, and the page index is not in the force set. -/
def alreadyDone (byPage : Nat → Option PageRow) (byUri : Str → Option PageRow)
    (force : Nat → Bool) (idx : Nat) (uri : Str) : Bool :=
  match firstMatch byPage byUri idx uri with
  | some row => decide (0 < row.chunk_count) && !force idx
  | none => false

/-- The actions the image loop takes for one input page: skip entirely
when already done, otherwise OCR the image, upsert the page row, delete
its chunks, and insert the chunks of the extracted text in order.
ocrText is the text the OCR call would return for this image. -/
def pageEffects (byPage : Nat → Option PageRow) (byUri : Str → Option PageRow)
    (force : Nat → Bool) (idx : Nat) (uri : Str) (ocrText : Str)
    (maxLen overlap : Nat) : List Effect :=
  if alreadyDone byPage byUri force idx uri then []
  else
    Effect.extractText idx :: Effect.upsertPage idx :: Effect.deleteChunks idx ::
      (List.range (chunk_text ocrText maxLen overlap).length).map
        (fun i => Effect.insertChunk idx (i + 1))

/-- Python chunk.encode ascii ignore, decoded and stripped: the ASCII
fallback content built when a chunk insert fails. -/
def asciiStrip (chunk : Str) : Str :=
  pyStrip (chunk.filter (fun c => c.toNat ≤ 0x7f))

/-- One insert attempt as recorded by the chunk-insert loop of the
image script: the content sent and whether the statement succeeded. -/
structure ChunkAttempt where
  content : Str
  ok : Bool
deriving DecidableEq, Repr

/-- The per-chunk insert logic of the image script main loop, over an
oracle exec telling whether inserting a given content succeeds: try the
chunk; on failure build the ASCII fallback and, only when it is
non-empty and differs from the chunk, try it once; every path returns
(a failure is logged, never re-raised). -/
def insertChunk (exec : Str → Bool) (chunk : Str) : List ChunkAttempt :=
  if exec chunk then [⟨chunk, true⟩]
  else
    let fallback := asciiStrip chunk
    if fallback ≠ [] ∧ fallback ≠ chunk then
      [⟨chunk, false⟩, ⟨fallback, exec fallback⟩]
    else [⟨chunk, false⟩]

/-- The chunk-insert loop of the image script: every chunk is processed
in order, whatever happened to the previous ones. -/
def insertChunks (exec : Str → Bool) (chunks : List Str) : List (List ChunkAttempt) :=
  chunks.map (insertChunk exec)

end Adamus.Images

namespace Adamus.Pdf

/-- The actions the PDF loop takes for one input page: skip the SQL
work when a record matched by page number has a positive chunk count,
otherwise upsert the page row, delete its chunks, and insert the chunks
of its text in order.  Text extraction does not appear here: the PDF
script extracts every page before this loop (see runEffects). -/
def pageEffects (byPage : Nat → Option PageRow) (idx : Nat) (text : Str) :
    List Effect :=
  let go : List Effect :=
    Effect.upsertPage idx :: Effect.deleteChunks idx ::
      (List.range (chunk_text text 1200 200).length).map
        (fun i => Effect.insertChunk idx (i + 1))
  match byPage idx with
  | some row => if 0 < row.chunk_count then [] else go
  | none => go

/-- A whole PDF run: the script first extracts the text of every page
of the document (pages 1..N in order), then runs the reconciliation
loop over the extracted texts. -/
def runEffects (pageTexts : List Str) (byPage : Nat → Option PageRow) :
    List Effect :=
  (pageTexts.enum.map (fun pr => Effect.extractText (pr.1 + 1))) ++
  (pageTexts.enum.flatMap (fun pr => pageEffects byPage (pr.1 + 1) pr.2))

/-- The chunk-insert loop of the PDF script main loop: each insert is
issued with no exception handling, so the first failing insert
propagates (aborting the run) with the remaining chunks unattempted;
on success the list of inserted contents is returned. -/
def insertChunks (exec : Str → Bool) : List Str → Except Str (List Str)
  | [] => Except.ok []
  | c :: rest =>
    if exec c then Except.map (fun l => c :: l) (insertChunks exec rest)
    else Except.error c

end Adamus.Pdf

namespace Adamus

theorem dropWhile_eq_self_of_all_neg {p : Char → Bool} (l : Str)
    (h : ∀ c ∈ l, p c = false) : l.dropWhile p = l := by
  cases l with
  | nil => rfl
  | cons c rest =>
    exact List.dropWhile_cons_of_neg (by simp [h c (List.mem_cons_self c rest)])

theorem pyStrip_eq_self_of_no_space (l : Str)
    (h : ∀ c ∈ l, pyIsSpace c = false) : pyStrip l = l := by
  unfold pyStrip
  rw [dropWhile_eq_self_of_all_neg l h,
    dropWhile_eq_self_of_all_neg l.reverse (fun c hc => h c (List.mem_reverse.mp hc)),
    List.reverse_reverse]

theorem char_eq_of_toNat_eq {c : Char} {n : Nat} (h : c.toNat = n) :
    c = Char.ofNat n := by
  have h2 : Char.ofNat c.toNat = Char.ofNat n := by rw [h]
  rwa [Char.ofNat_toNat] at h2

/-- Claim C7 (corrected).  sanitize_text always returns a string, the
empty one for an absent input; every carriage-return newline pair and
every lone carriage return has been replaced by a newline, so no
carriage return remains; and every C0 control character (codepoint
below 32) other than newline and tab has been removed.  The original
claim fails only in that DEL (codepoint 127), an ASCII control
character, is retained: see the counterexample. -/
theorem C7_sanitize_text_amended (value : Option Str) :
    Images.sanitize_text none = [] ∧
    ∀ c ∈ Images.sanitize_text value,
      ¬ c = '\r' ∧ (c.toNat < 32 → c = '\n' ∨ c = '\t') := by
  refine ⟨rfl, ?_⟩
  intro c hc
  match value with
  | none => simp [Images.sanitize_text] at hc
  | some v =>
    rw [Images.sanitize_text] at hc
    by_cases hv : v = []
    · simp [hv] at hc
    · rw [if_neg hv, List.mem_filter] at hc
      obtain ⟨hmem, hctrl⟩ := hc
      obtain ⟨a, _, ha⟩ := List.mem_map.mp hmem
      have hcr : ¬ c = '\r' := by
        by_cases har : a = '\r'
        · rw [← ha, if_pos har]
          decide
        · rw [← ha, if_neg har]
          exact har
      refine ⟨hcr, fun hlt => ?_⟩
      have hrc : Images.removedCtrl c = false := by
        cases hrc : Images.removedCtrl c with
        | false => rfl
        | true => rw [hrc] at hctrl; simp at hctrl
      simp only [Images.removedCtrl, Bool.or_eq_false_iff, decide_eq_false_iff_not,
        Bool.and_eq_false_iff, not_le, decide_eq_true_eq, Nat.not_lt] at hrc
      have h13 : c.toNat ≠ 13 := fun h13 => hcr (char_eq_of_toNat_eq h13)
      have h9 : c.toNat = 9 ∨ c.toNat = 10 := by omega
      rcases h9 with h9 | h10
      · exact Or.inr (char_eq_of_toNat_eq h9)
      · exact Or.inl (char_eq_of_toNat_eq h10)

/-- Witness for C7: a concrete surviving character of a sanitized
string satisfies the amended guarantees. -/
theorem C7_sanitize_text_witness :
    ¬ 'a' = '\r' ∧ ('a'.toNat < 32 → 'a' = '\n' ∨ 'a' = '\t') :=
  (C7_sanitize_text_amended (some ['a', '\r', 'b'])).2 'a' (by decide)

/-- Counterexample for claim C7 as stated: DEL, codepoint 127, is an
ASCII control character that is neither newline nor tab, yet
sanitize_text keeps it (the removal class of the source stops at
codepoint 31). -/
theorem C7_sanitize_text_counterexample :
    Images.sanitize_text (some ['\x7f']) = ['\x7f'] ∧
    ('\x7f').toNat = 127 := by decide

end Adamus

namespace Adamus

theorem pdf_sql_literal_eq (value : Str) :
    Pdf.sql_literal value =
      (if ("$adamus$").toList <:+: value.filter (fun c => c ≠ '\x00') then
        if ("$adamus_text$").toList <:+: value.filter (fun c => c ≠ '\x00') then
          ("$adamus_chunk$").toList
        else ("$adamus_text$").toList
      else ("$adamus$").toList) ++
      value.filter (fun c => c ≠ '\x00') ++
      (if ("$adamus$").toList <:+: value.filter (fun c => c ≠ '\x00') then
        if ("$adamus_text$").toList <:+: value.filter (fun c => c ≠ '\x00') then
          ("$adamus_chunk$").toList
        else ("$adamus_text$").toList
      else ("$adamus$").toList) := rfl

/-- Claim C1 (corrected).  The image-script sql_literal always wraps
the sanitized content between two copies of a tag that does not occur
in it, for every input.  The PDF-script sql_literal guarantees that
only when its NUL-stripped content does not contain all three of its
fixed candidate tags; the counterexample shows a content containing
all three, where the chosen tag occurs in the content. -/
theorem C1_sql_literal_amended (vimg vpdf : Str) :
    (∃ t : Str,
      Images.sql_literal vimg =
        t ++ Images.sanitize_text (some vimg) ++ t ∧
      ¬ t <:+: Images.sanitize_text (some vimg)) ∧
    (¬ (("$adamus$").toList <:+: vpdf.filter (fun c => c ≠ '\x00') ∧
        ("$adamus_text$").toList <:+: vpdf.filter (fun c => c ≠ '\x00') ∧
        ("$adamus_chunk$").toList <:+: vpdf.filter (fun c => c ≠ '\x00')) →
      ∃ t : Str,
        Pdf.sql_literal vpdf = t ++ vpdf.filter (fun c => c ≠ '\x00') ++ t ∧
        ¬ t <:+: vpdf.filter (fun c => c ≠ '\x00')) := by
  constructor
  · exact ⟨Images.adamusTag
      (Nat.find (Images.exists_tag_avoiding (Images.sanitize_text (some vimg)))),
      rfl, Nat.find_spec (Images.exists_tag_avoiding _)⟩
  · intro hno
    by_cases h1 : ("$adamus$").toList <:+: vpdf.filter (fun c => c ≠ '\x00')
    · by_cases h2 : ("$adamus_text$").toList <:+: vpdf.filter (fun c => c ≠ '\x00')
      · refine ⟨("$adamus_chunk$").toList, ?_, fun h3 => hno ⟨h1, h2, h3⟩⟩
        rw [pdf_sql_literal_eq, if_pos h1, if_pos h2]
      · refine ⟨("$adamus_text$").toList, ?_, h2⟩
        rw [pdf_sql_literal_eq, if_pos h1, if_neg h2]
    · refine ⟨("$adamus$").toList, ?_, h1⟩
      rw [pdf_sql_literal_eq, if_neg h1]

/-- Witness for C1: the amended theorem applied to a one-character
content for both scripts. -/
theorem C1_sql_literal_witness :
    (∃ t : Str,
      Images.sql_literal ['h'] = t ++ Images.sanitize_text (some ['h']) ++ t ∧
      ¬ t <:+: Images.sanitize_text (some ['h'])) ∧
    (∃ t : Str,
      Pdf.sql_literal ['h'] = t ++ (['h'].filter (fun c => c ≠ '\x00')) ++ t ∧
      ¬ t <:+: ['h'].filter (fun c => c ≠ '\x00')) :=
  ⟨(C1_sql_literal_amended ['h'] ['h']).1,
   (C1_sql_literal_amended ['h'] ['h']).2 (by decide)⟩

/-- Counterexample for claim C1 as stated: a content holding all three
candidate tags of the PDF script.  The chosen tag is the third
candidate, which occurs in the content, so the delimiter collides. -/
theorem C1_sql_literal_counterexample :
    ("$adamus_chunk$").toList <:+:
      ("$adamus$ $adamus_text$ $adamus_chunk$").toList.filter
        (fun c => c ≠ '\x00') ∧
    Pdf.sql_literal (("$adamus$ $adamus_text$ $adamus_chunk$").toList) =
      ("$adamus_chunk$").toList ++
        ("$adamus$ $adamus_text$ $adamus_chunk$").toList ++
        ("$adamus_chunk$").toList := by decide

end Adamus

namespace Adamus

theorem flushCurrent_mem (current : Str) (chunks : List Str) :
    ∀ c ∈ flushCurrent current chunks, c ∈ chunks ∨ (c = current ∧ current ≠ []) := by
  intro c hc
  unfold flushCurrent at hc
  split at hc
  · exact Or.inl hc
  · rcases List.mem_append.mp hc with h | h
    · exact Or.inl h
    · rw [List.mem_singleton] at h
      rename_i hcur
      exact Or.inr ⟨h, hcur⟩

theorem hardSplit_mem_length (p : Str) (maxLen overlap : Nat) :
    ∀ fuel start, ∀ c ∈ hardSplit p maxLen overlap start fuel,
      c.length ≤ maxLen := by
  intro fuel
  induction fuel with
  | zero => intro start c hc; simp [hardSplit] at hc
  | succ n ih =>
    intro start c hc
    rw [hardSplit] at hc
    split at hc
    · rcases List.mem_cons.mp hc with h | h
      · subst h
        simp only [pySlice, windowEnd, List.length_take, List.length_drop]
        omega
      · exact ih _ c h
    · simp at hc

theorem hardSplit_mem_ne_nil (p : Str) (maxLen overlap : Nat) (hm : 1 ≤ maxLen) :
    ∀ fuel start, ∀ c ∈ hardSplit p maxLen overlap start fuel, c ≠ [] := by
  intro fuel
  induction fuel with
  | zero => intro start c hc; simp [hardSplit] at hc
  | succ n ih =>
    intro start c hc
    rw [hardSplit] at hc
    split at hc
    · rcases List.mem_cons.mp hc with h | h
      · subst h
        have hlen : (pySlice p start (windowEnd p maxLen start)).length =
            min (windowEnd p maxLen start - start) (p.length - start) := by
          simp [pySlice, List.length_take, List.length_drop]
        intro hnil
        rw [hnil] at hlen
        simp only [windowEnd] at hlen
        rename_i hstart
        simp at hlen
        omega
      · exact ih _ c h
    · simp at hc

theorem chunkLoop_mem_length (maxLen overlap : Nat) (paras : List Str) :
    ∀ current chunks, current.length ≤ maxLen →
      (∀ c ∈ chunks, c.length ≤ maxLen) →
      ∀ c ∈ chunkLoop maxLen overlap paras current chunks, c.length ≤ maxLen := by
  induction paras with
  | nil =>
    intro current chunks hcur hch c hc
    rw [chunkLoop] at hc
    rcases flushCurrent_mem current chunks c hc with h | ⟨h, _⟩
    · exact hch c h
    · rw [h]; exact hcur
  | cons p ps ih =>
    intro current chunks hcur hch c hc
    rw [chunkLoop] at hc
    split at hc
    · rename_i hfit
      refine ih _ _ ?_ hch c hc
      calc (pyStrip (current ++ '\n' :: p)).length
          ≤ (current ++ '\n' :: p).length := pyStrip_length_le _
        _ = current.length + (p.length + 1) := by simp
        _ ≤ maxLen := by omega
    · have hflush : ∀ d ∈ flushCurrent current chunks, List.length d ≤ maxLen := by
        intro d hd
        rcases flushCurrent_mem current chunks d hd with h | ⟨h, _⟩
        · exact hch d h
        · rw [h]; exact hcur
      split at hc
      · rename_i hple
        exact ih _ _ hple hflush c hc
      · refine ih _ _ (by simp) ?_ c hc
        intro d hd
        rcases List.mem_append.mp hd with h | h
        · exact hflush d h
        · exact hardSplit_mem_length p maxLen overlap _ _ d h

theorem chunkLoop_mem_ne_nil (maxLen overlap : Nat) (hm : 1 ≤ maxLen)
    (paras : List Str) :
    ∀ current chunks, (∀ c ∈ chunks, c ≠ []) →
      ∀ c ∈ chunkLoop maxLen overlap paras current chunks, c ≠ [] := by
  induction paras with
  | nil =>
    intro current chunks hch c hc
    rw [chunkLoop] at hc
    rcases flushCurrent_mem current chunks c hc with h | ⟨h, hne⟩
    · exact hch c h
    · rw [h]; exact hne
  | cons p ps ih =>
    intro current chunks hch c hc
    rw [chunkLoop] at hc
    have hflush : ∀ d ∈ flushCurrent current chunks, d ≠ [] := by
      intro d hd
      rcases flushCurrent_mem current chunks d hd with h | ⟨h, hne⟩
      · exact hch d h
      · rw [h]; exact hne
    split at hc
    · exact ih _ _ hch c hc
    · split at hc
      · exact ih _ _ hflush c hc
      · refine ih _ _ ?_ c hc
        intro d hd
        rcases List.mem_append.mp hd with h | h
        · exact hflush d h
        · exact hardSplit_mem_ne_nil p maxLen overlap hm _ _ d h

/-- Claim C4 (confirmed).  Every chunk returned by chunk_text, in
either script, has length at most maxLen, for every text, every
maxLen of at least 1, and every overlap. -/
theorem C4_chunk_text_length (text : Str) (maxLen overlap : Nat)
    (hm : 1 ≤ maxLen) :
    (∀ c ∈ Images.chunk_text text maxLen overlap, c.length ≤ maxLen) ∧
    (∀ c ∈ Pdf.chunk_text text maxLen overlap, c.length ≤ maxLen) := by
  constructor
  · intro c hc
    rw [Images.chunk_text] at hc
    split at hc
    · simp at hc
    · exact chunkLoop_mem_length maxLen overlap _ [] [] (by simp) (by simp) c hc
  · intro c hc
    rw [Pdf.chunk_text] at hc
    split at hc
    · simp at hc
    · exact chunkLoop_mem_length maxLen overlap _ [] [] (by simp) (by simp) c hc

/-- Witness for C4: the bound instantiated on a concrete text and
parameters. -/
theorem C4_chunk_text_length_witness :
    (∀ c ∈ Images.chunk_text (("abcdefgh").toList) 5 2, c.length ≤ 5) ∧
    (∀ c ∈ Pdf.chunk_text (("abcdefgh").toList) 5 2, c.length ≤ 5) :=
  C4_chunk_text_length (("abcdefgh").toList) 5 2 (by decide)

/-- Claim C10 (confirmed).  Every chunk returned by chunk_text, in
either script, is a non-empty string, for every text and every maxLen
of at least 1: buffers are flushed only when non-empty, and each
hard-split window has positive width. -/
theorem C10_chunk_text_ne_nil (text : Str) (maxLen overlap : Nat)
    (hm : 1 ≤ maxLen) :
    (∀ c ∈ Images.chunk_text text maxLen overlap, c ≠ []) ∧
    (∀ c ∈ Pdf.chunk_text text maxLen overlap, c ≠ []) := by
  constructor
  · intro c hc
    rw [Images.chunk_text] at hc
    split at hc
    · simp at hc
    · exact chunkLoop_mem_ne_nil maxLen overlap hm _ [] [] (by simp) c hc
  · intro c hc
    rw [Pdf.chunk_text] at hc
    split at hc
    · simp at hc
    · exact chunkLoop_mem_ne_nil maxLen overlap hm _ [] [] (by simp) c hc

/-- Witness for C10: non-emptiness instantiated on a concrete text and
parameters. -/
theorem C10_chunk_text_ne_nil_witness :
    (∀ c ∈ Images.chunk_text (("abcdefgh").toList) 5 2, c ≠ []) ∧
    (∀ c ∈ Pdf.chunk_text (("abcdefgh").toList) 5 2, c ≠ []) :=
  C10_chunk_text_ne_nil (("abcdefgh").toList) 5 2 (by decide)

end Adamus

namespace Adamus

theorem nextStart_gt (p : Str) (maxLen overlap : Nat) (hm : 1 ≤ maxLen)
    (start : Nat) (hs : start < p.length) :
    start < nextStart p maxLen overlap start := by
  simp only [nextStart]
  split
  · omega
  · omega

theorem hardSplit_done (p : Str) (maxLen overlap start : Nat)
    (hs : ¬ start < p.length) :
    ∀ fuel, hardSplit p maxLen overlap start fuel = [] := by
  intro fuel
  cases fuel with
  | zero => rfl
  | succ n => rw [hardSplit, if_neg hs]

theorem hardSplit_fuel_stable (p : Str) (maxLen overlap : Nat) (hm : 1 ≤ maxLen) :
    ∀ n start f1 f2, p.length - start ≤ n →
      p.length - start ≤ f1 → p.length - start ≤ f2 →
      hardSplit p maxLen overlap start f1 = hardSplit p maxLen overlap start f2 := by
  intro n
  induction n with
  | zero =>
    intro start f1 f2 hn h1 h2
    have hs : ¬ start < p.length := by omega
    rw [hardSplit_done p maxLen overlap start hs,
      hardSplit_done p maxLen overlap start hs]
  | succ n ih =>
    intro start f1 f2 hn h1 h2
    by_cases hs : start < p.length
    · obtain ⟨a, rfl⟩ : ∃ a, f1 = a + 1 := ⟨f1 - 1, by omega⟩
      obtain ⟨b, rfl⟩ : ∃ b, f2 = b + 1 := ⟨f2 - 1, by omega⟩
      rw [hardSplit, hardSplit, if_pos hs, if_pos hs]
      have hlt := nextStart_gt p maxLen overlap hm start hs
      rw [ih (nextStart p maxLen overlap start) a b (by omega) (by omega) (by omega)]
    · rw [hardSplit_done p maxLen overlap start hs,
        hardSplit_done p maxLen overlap start hs]

/-- Claim C9 (confirmed).  The hard-split loop of chunk_text terminates
whenever maxLen is at least 1: the start index strictly increases on
every iteration while it is below the paragraph length, so the
fuel-indexed model of the loop is independent of the fuel once the fuel
covers the remaining distance, which is what termination of the Python
while loop means in this embedding. -/
theorem C9_hardSplit_terminates (p : Str) (maxLen overlap : Nat)
    (hm : 1 ≤ maxLen) :
    (∀ start, start < p.length → start < nextStart p maxLen overlap start) ∧
    (∀ start f1 f2, p.length - start ≤ f1 → p.length - start ≤ f2 →
      hardSplit p maxLen overlap start f1 = hardSplit p maxLen overlap start f2) :=
  ⟨fun start hs => nextStart_gt p maxLen overlap hm start hs,
   fun start f1 f2 h1 h2 =>
     hardSplit_fuel_stable p maxLen overlap hm (p.length - start) start f1 f2
       (Nat.le_refl _) h1 h2⟩

/-- Witness for C9: the strict advance and the fuel independence on a
concrete two-character paragraph. -/
theorem C9_hardSplit_terminates_witness :
    0 < nextStart (("ab").toList) 1 0 0 ∧
    hardSplit (("ab").toList) 1 0 0 2 = hardSplit (("ab").toList) 1 0 0 5 :=
  ⟨(C9_hardSplit_terminates (("ab").toList) 1 0 (by decide)).1 0 (by decide),
   (C9_hardSplit_terminates (("ab").toList) 1 0 (by decide)).2 0 2 5
     (by decide) (by decide)⟩

theorem splitBlankGo_mem :
    ∀ (n : Nat) (l acc : Str), l.length ≤ n →
      ∀ piece ∈ splitBlankGo l acc, ∀ c ∈ piece, c ∈ l ∨ c ∈ acc := by
  intro n
  induction n with
  | zero =>
    intro l acc hl piece hp c hc
    have hnil : l = [] := by
      cases l with
      | nil => rfl
      | cons a b => simp at hl
    subst hnil
    rw [splitBlankGo] at hp
    rw [List.mem_singleton] at hp
    subst hp
    exact Or.inr (List.mem_reverse.mp hc)
  | succ n ih =>
    intro l acc hl piece hp c hc
    cases l with
    | nil =>
      rw [splitBlankGo] at hp
      rw [List.mem_singleton] at hp
      subst hp
      exact Or.inr (List.mem_reverse.mp hc)
    | cons d rest =>
      rw [splitBlankGo] at hp
      split at hp
      · rcases List.mem_cons.mp hp with h | h
        · subst h
          exact Or.inr (List.mem_reverse.mp hc)
        · have hlen : (rest.dropWhile (fun x => x = '\n')).length ≤ n := by
            have := (List.dropWhile_sublist (fun x => x = '\n') (l := rest)).length_le
            simp only [List.length_cons] at hl
            omega
          rcases ih _ [] hlen piece h c hc with h2 | h2
          · exact Or.inl (List.mem_cons_of_mem d
              ((List.dropWhile_sublist (fun x => x = '\n')).subset h2))
          · simp at h2
      · have hlen : rest.length ≤ n := by
          simp only [List.length_cons] at hl
          omega
        rcases ih rest (d :: acc) hlen piece hp c hc with h2 | h2
        · exact Or.inl (List.mem_cons_of_mem d h2)
        · rcases List.mem_cons.mp h2 with h3 | h3
          · rw [h3]
            exact Or.inl (List.mem_cons_self d rest)
          · exact Or.inr h3

theorem splitlinesGo_mem :
    ∀ (n : Nat) (l acc : Str), l.length ≤ n →
      ∀ piece ∈ splitlinesGo l acc, ∀ c ∈ piece, c ∈ l ∨ c ∈ acc := by
  intro n
  induction n with
  | zero =>
    intro l acc hl piece hp c hc
    have hnil : l = [] := by
      cases l with
      | nil => rfl
      | cons a b => simp at hl
    subst hnil
    rw [splitlinesGo] at hp
    rw [List.mem_singleton] at hp
    subst hp
    exact Or.inr (List.mem_reverse.mp hc)
  | succ n ih =>
    intro l acc hl piece hp c hc
    cases l with
    | nil =>
      rw [splitlinesGo] at hp
      rw [List.mem_singleton] at hp
      subst hp
      exact Or.inr (List.mem_reverse.mp hc)
    | cons d rest =>
      rw [splitlinesGo] at hp
      split at hp
      · rcases List.mem_cons.mp hp with h | h
        · subst h
          exact Or.inr (List.mem_reverse.mp hc)
        · split at h
          · simp at h
          · have hlen : (afterBreak d rest).length ≤ n := by
              have := (afterBreak_sublist d rest).length_le
              simp only [List.length_cons] at hl
              omega
            rcases ih _ [] hlen piece h c hc with h2 | h2
            · exact Or.inl (List.mem_cons_of_mem d
                ((afterBreak_sublist d rest).subset h2))
            · simp at h2
      · have hlen : rest.length ≤ n := by
          simp only [List.length_cons] at hl
          omega
        rcases ih rest (d :: acc) hlen piece hp c hc with h2 | h2
        · exact Or.inl (List.mem_cons_of_mem d h2)
        · rcases List.mem_cons.mp h2 with h3 | h3
          · rw [h3]
            exact Or.inl (List.mem_cons_self d rest)
          · exact Or.inr h3

end Adamus

namespace Adamus

theorem splitBlank_space_paragraphs (text : Str)
    (h : ∀ c ∈ text, pyIsSpace c = true) :
    ((splitBlank text).map pyStrip).filter (fun p => p ≠ []) = [] := by
  rw [List.filter_eq_nil_iff]
  intro a ha
  rw [List.mem_map] at ha
  obtain ⟨piece, hpiece, rfl⟩ := ha
  rw [splitBlank] at hpiece
  have hall : ∀ c ∈ piece, pyIsSpace c = true := by
    intro c hc
    rcases splitBlankGo_mem text.length text [] (Nat.le_refl _) piece hpiece c hc
      with h2 | h2
    · exact h c h2
    · simp at h2
  rw [pyStrip_eq_nil_of_all_space piece hall]
  simp

theorem pySplitlines_space_paragraphs (text : Str)
    (h : ∀ c ∈ text, pyIsSpace c = true) :
    ((pySplitlines text).map pyStrip).filter (fun p => p ≠ []) = [] := by
  rw [pySplitlines]
  split
  · rfl
  · rw [List.filter_eq_nil_iff]
    intro a ha
    rw [List.mem_map] at ha
    obtain ⟨piece, hpiece, rfl⟩ := ha
    have hall : ∀ c ∈ piece, pyIsSpace c = true := by
      intro c hc
      rcases splitlinesGo_mem text.length text [] (Nat.le_refl _) piece hpiece c hc
        with h2 | h2
      · exact h c h2
      · simp at h2
    rw [pyStrip_eq_nil_of_all_space piece hall]
    simp

/-- Claim C8 (confirmed).  chunk_text of an empty or whitespace-only
text is the empty sequence in both scripts, for every maxLen and
overlap: every paragraph strips to the empty string, so the paragraph
list is empty and the loop flushes an empty buffer. -/
theorem C8_chunk_text_blank (text : Str) (maxLen overlap : Nat)
    (h : ∀ c ∈ text, pyIsSpace c = true) :
    Images.chunk_text text maxLen overlap = [] ∧
    Pdf.chunk_text text maxLen overlap = [] := by
  constructor
  · rw [Images.chunk_text]
    split
    · rfl
    · rw [splitBlank_space_paragraphs text h, chunkLoop]
      rfl
  · rw [Pdf.chunk_text]
    split
    · rfl
    · rw [pySplitlines_space_paragraphs text h, chunkLoop]
      rfl

/-- Witness for C8: a concrete whitespace-only text, and the empty
text, both yield no chunks. -/
theorem C8_chunk_text_blank_witness :
    (Images.chunk_text ((" \t\n  ").toList) 7 3 = [] ∧
      Pdf.chunk_text ((" \t\n  ").toList) 7 3 = []) ∧
    (Images.chunk_text [] 7 3 = [] ∧ Pdf.chunk_text [] 7 3 = []) :=
  ⟨C8_chunk_text_blank ((" \t\n  ").toList) 7 3 (by decide),
   C8_chunk_text_blank [] 7 3 (by decide)⟩

end Adamus

namespace Adamus

theorem pyIsSpace_of_lineBreak {c : Char} (h : isLineBreak c = true) :
    pyIsSpace c = true := by
  simp [pyIsSpace, h]

theorem splitBlankGo_no_newline (l : Str) :
    ∀ acc, (∀ c ∈ l, ¬ c = '\n') →
      splitBlankGo l acc = [acc.reverse ++ l] := by
  induction l with
  | nil =>
    intro acc h
    rw [splitBlankGo]
    simp
  | cons d rest ih =>
    intro acc h
    rw [splitBlankGo,
      if_neg (fun hcond => h d (List.mem_cons_self d rest) hcond.1),
      ih (d :: acc) (fun c hc => h c (List.mem_cons_of_mem d hc))]
    simp

theorem splitlinesGo_no_break (l : Str) :
    ∀ acc, (∀ c ∈ l, isLineBreak c = false) →
      splitlinesGo l acc = [acc.reverse ++ l] := by
  induction l with
  | nil =>
    intro acc h
    rw [splitlinesGo]
    simp
  | cons d rest ih =>
    intro acc h
    rw [splitlinesGo]
    rw [if_neg (by rw [h d (List.mem_cons_self d rest)]; simp)]
    rw [ih (d :: acc) (fun c hc => h c (List.mem_cons_of_mem d hc))]
    simp

theorem flushCurrent_nil (chunks : List Str) : flushCurrent [] chunks = chunks := by
  rw [flushCurrent, if_pos rfl]

theorem hardSplit_step (p : Str) (maxLen overlap start fuel : Nat)
    (hs : start < p.length) :
    hardSplit p maxLen overlap start (fuel + 1) =
      pySlice p start (windowEnd p maxLen start) ::
        hardSplit p maxLen overlap (nextStart p maxLen overlap start) fuel := by
  rw [hardSplit, if_pos hs]

theorem hardSplit3000 (p : Str) (hlen : p.length = 3000) :
    hardSplit p 1200 200 0 3000 =
      [pySlice p 0 1200, pySlice p 1000 2200,
       pySlice p 2000 3000, pySlice p 2800 3000] := by
  have e0 : windowEnd p 1200 0 = 1200 := by simp [windowEnd, hlen]
  have n0 : nextStart p 1200 200 0 = 1000 := by simp [nextStart, hlen]
  have e1 : windowEnd p 1200 1000 = 2200 := by simp [windowEnd, hlen]
  have n1 : nextStart p 1200 200 1000 = 2000 := by simp [nextStart, hlen]
  have e2 : windowEnd p 1200 2000 = 3000 := by simp [windowEnd, hlen]
  have n2 : nextStart p 1200 200 2000 = 2800 := by simp [nextStart, hlen]
  have e3 : windowEnd p 1200 2800 = 3000 := by simp [windowEnd, hlen]
  have n3 : nextStart p 1200 200 2800 = 3000 := by simp [nextStart, hlen]
  have s1 : hardSplit p 1200 200 0 3000 =
      pySlice p 0 1200 :: hardSplit p 1200 200 1000 2999 := by
    have h := hardSplit_step p 1200 200 0 2999 (by omega)
    rw [e0, n0] at h
    exact h
  have s2 : hardSplit p 1200 200 1000 2999 =
      pySlice p 1000 2200 :: hardSplit p 1200 200 2000 2998 := by
    have h := hardSplit_step p 1200 200 1000 2998 (by omega)
    rw [e1, n1] at h
    exact h
  have s3 : hardSplit p 1200 200 2000 2998 =
      pySlice p 2000 3000 :: hardSplit p 1200 200 2800 2997 := by
    have h := hardSplit_step p 1200 200 2000 2997 (by omega)
    rw [e2, n2] at h
    exact h
  have s4 : hardSplit p 1200 200 2800 2997 =
      pySlice p 2800 3000 :: hardSplit p 1200 200 3000 2996 := by
    have h := hardSplit_step p 1200 200 2800 2996 (by omega)
    rw [e3, n3] at h
    exact h
  rw [s1, s2, s3, s4, hardSplit_done p 1200 200 3000 (by omega) 2996]

theorem chunk3000_windows (p : Str) (hlen : p.length = 3000)
    (hs : ∀ c ∈ p, pyIsSpace c = false) :
    Images.chunk_text p 1200 200 =
      [pySlice p 0 1200, pySlice p 1000 2200,
       pySlice p 2000 3000, pySlice p 2800 3000] ∧
    Pdf.chunk_text p 1200 200 =
      [pySlice p 0 1200, pySlice p 1000 2200,
       pySlice p 2000 3000, pySlice p 2800 3000] := by
  have hp_ne : p ≠ [] := by
    intro h
    rw [h] at hlen
    simp at hlen
  have hstrip : pyStrip p = p := pyStrip_eq_self_of_no_space p hs
  have hloop : chunkLoop 1200 200 [p] [] [] =
      [pySlice p 0 1200, pySlice p 1000 2200,
       pySlice p 2000 3000, pySlice p 2800 3000] := by
    rw [chunkLoop,
      if_neg (by simp only [List.length_nil, hlen]; omega),
      if_neg (by rw [hlen]; omega),
      hlen, chunkLoop, flushCurrent_nil, flushCurrent_nil, List.nil_append,
      hardSplit3000 p hlen]
  constructor
  · rw [Images.chunk_text, if_neg hp_ne, splitBlank,
      splitBlankGo_no_newline p [] (fun c hc hn => by
        have := hs c hc
        rw [hn] at this
        simp [pyIsSpace, isLineBreak] at this)]
    simp only [List.reverse_nil, List.nil_append, List.map_cons, List.map_nil,
      hstrip]
    rw [show List.filter (fun q => q ≠ []) [p] = [p] from by simp [hp_ne]]
    exact hloop
  · rw [Pdf.chunk_text, if_neg hp_ne, pySplitlines, if_neg hp_ne,
      splitlinesGo_no_break p [] (fun c hc => by
        cases hb : isLineBreak c with
        | false => rfl
        | true =>
          have := hs c hc
          rw [pyIsSpace_of_lineBreak hb] at this
          simp at this)]
    simp only [List.reverse_nil, List.nil_append, List.map_cons, List.map_nil,
      hstrip]
    rw [show List.filter (fun q => q ≠ []) [p] = [p] from by simp [hp_ne]]
    exact hloop

end Adamus

namespace Adamus

/-- Claim C2 (corrected).  A single 3000-character paragraph (no
whitespace characters, hence no blank lines or newlines) chunked with
maxLen 1200 and overlap 200 yields, in both scripts, the hard-split
windows at offsets 0, 1000, 2000 and 2800, of lengths 1200, 1200, 1000
and 200.  The original claim lists only the windows at 0, 1000 and
2000: after the window ending at position 3000 the loop steps back to
2800, which is still below the paragraph length, so one further
200-character window is produced before the loop exits. -/
theorem C2_chunk_text_3000 (p : Str) (hlen : p.length = 3000)
    (hs : ∀ c ∈ p, pyIsSpace c = false) :
    (Images.chunk_text p 1200 200 =
      [pySlice p 0 1200, pySlice p 1000 2200,
       pySlice p 2000 3000, pySlice p 2800 3000] ∧
     Pdf.chunk_text p 1200 200 =
      [pySlice p 0 1200, pySlice p 1000 2200,
       pySlice p 2000 3000, pySlice p 2800 3000]) ∧
    ((pySlice p 0 1200).length = 1200 ∧ (pySlice p 1000 2200).length = 1200 ∧
     (pySlice p 2000 3000).length = 1000 ∧ (pySlice p 2800 3000).length = 200) := by
  refine ⟨chunk3000_windows p hlen hs, ?_, ?_, ?_, ?_⟩ <;>
    simp [pySlice, hlen]

/-- Witness for C2: the amended window list on the concrete paragraph
of 3000 letters. -/
theorem C2_chunk_text_3000_witness :
    (Images.chunk_text (List.replicate 3000 'a') 1200 200 =
      [pySlice (List.replicate 3000 'a') 0 1200,
       pySlice (List.replicate 3000 'a') 1000 2200,
       pySlice (List.replicate 3000 'a') 2000 3000,
       pySlice (List.replicate 3000 'a') 2800 3000] ∧
     Pdf.chunk_text (List.replicate 3000 'a') 1200 200 =
      [pySlice (List.replicate 3000 'a') 0 1200,
       pySlice (List.replicate 3000 'a') 1000 2200,
       pySlice (List.replicate 3000 'a') 2000 3000,
       pySlice (List.replicate 3000 'a') 2800 3000]) ∧
    ((pySlice (List.replicate 3000 'a') 0 1200).length = 1200 ∧
     (pySlice (List.replicate 3000 'a') 1000 2200).length = 1200 ∧
     (pySlice (List.replicate 3000 'a') 2000 3000).length = 1000 ∧
     (pySlice (List.replicate 3000 'a') 2800 3000).length = 200) :=
  C2_chunk_text_3000 (List.replicate 3000 'a') (by rw [List.length_replicate])
    (fun c hc => by rw [List.eq_of_mem_replicate hc]; rfl)

/-- Counterexample for claim C2 as stated: on the concrete
3000-character paragraph both scripts return four windows, not the
three (at offsets 0, 1000, 2000) the claim describes. -/
theorem C2_chunk_text_counterexample :
    (Images.chunk_text (List.replicate 3000 'a') 1200 200).length = 4 ∧
    (Pdf.chunk_text (List.replicate 3000 'a') 1200 200).length = 4 := by
  have h := chunk3000_windows (List.replicate 3000 'a') (by rw [List.length_replicate])
    (fun c hc => by rw [List.eq_of_mem_replicate hc]; rfl)
  rw [h.1, h.2]
  exact ⟨rfl, rfl⟩

end Adamus

namespace Adamus

/-- Claim C3 (corrected).  In the image script, the chunk-insert loop
processes every chunk (a failing insert never aborts the loop); a
failed insert is retried exactly once with the ASCII-stripped content,
but only when that content is non-empty and differs from the chunk,
otherwise the failure is only logged and no retry happens.  In the PDF
script there is no fallback at all: the first failing insert
propagates, aborting the run (see the counterexample). -/
theorem C3_chunk_insert_fallback :
    (∀ (exec : Str → Bool) (chunks : List Str),
      (Images.insertChunks exec chunks).length = chunks.length) ∧
    (∀ (exec : Str → Bool) (chunk : Str), exec chunk = false →
      Images.asciiStrip chunk ≠ [] → Images.asciiStrip chunk ≠ chunk →
      Images.insertChunk exec chunk =
        [⟨chunk, false⟩,
         ⟨Images.asciiStrip chunk, exec (Images.asciiStrip chunk)⟩]) ∧
    (∀ (exec : Str → Bool) (chunk : Str), exec chunk = false →
      (Images.asciiStrip chunk = [] ∨ Images.asciiStrip chunk = chunk) →
      Images.insertChunk exec chunk = [⟨chunk, false⟩]) ∧
    (∀ (exec : Str → Bool) (c : Str) (rest : List Str), exec c = false →
      Pdf.insertChunks exec (c :: rest) = Except.error c) := by
  refine ⟨?_, ?_, ?_, ?_⟩
  · intro exec chunks
    exact List.length_map chunks (Images.insertChunk exec)
  · intro exec chunk hf h1 h2
    rw [Images.insertChunk]
    rw [if_neg (by rw [hf]; simp), if_pos ⟨h1, h2⟩]
  · intro exec chunk hf h12
    rw [Images.insertChunk]
    rw [if_neg (by rw [hf]; simp),
      if_neg (fun hcond => h12.elim (fun h => hcond.1 h) (fun h => hcond.2 h))]
  · intro exec c rest hf
    rw [Pdf.insertChunks]
    rw [if_neg (by rw [hf]; simp)]

/-- Witness for C3: the three image-script behaviours and the
PDF-script abort on concrete chunks (the second chunk holds a
non-ASCII letter, so its fallback differs). -/
theorem C3_chunk_insert_fallback_witness :
    (Images.insertChunks (fun _ => false) [['a'], ['b']]).length = 2 ∧
    Images.insertChunk (fun _ => false) ['a', 'é'] =
      [⟨['a', 'é'], false⟩, ⟨['a'], false⟩] ∧
    Images.insertChunk (fun _ => false) ['a'] = [⟨['a'], false⟩] ∧
    Pdf.insertChunks (fun _ => false) [['x'], ['y']] = Except.error ['x'] :=
  ⟨C3_chunk_insert_fallback.1 (fun _ => false) [['a'], ['b']],
   C3_chunk_insert_fallback.2.1 (fun _ => false) ['a', 'é'] rfl
     (by decide) (by decide),
   C3_chunk_insert_fallback.2.2.1 (fun _ => false) ['a'] rfl
     (Or.inr (by decide)),
   C3_chunk_insert_fallback.2.2.2 (fun _ => false) ['x'] [['y']] rfl⟩

/-- Counterexample for claim C3 as stated: in the PDF script a single
failing chunk insert aborts the whole loop with the exception
propagating; the second chunk is never attempted and there is no ASCII
retry. -/
theorem C3_chunk_insert_counterexample :
    Pdf.insertChunks (fun _ => false) [['a'], ['b']] = Except.error ['a'] := rfl

/-- Claim C5 (corrected).  In both scripts a page whose matched
existing record has a positive chunk count (and, in the image script,
whose index is not in the force set) gets no per-page actions in the
reconciliation loop: no OCR call, no page upsert, no chunk delete, no
chunk insert.  The original claim also asserts that text extraction is
never called for such a page in the PDF script; that part fails, since
the PDF script extracts the text of every page before the loop (see
the counterexample). -/
theorem C5_reconciliation_skip (byPage : Nat → Option PageRow)
    (byUri : Str → Option PageRow) (force : Nat → Bool) (idx : Nat)
    (uri : Str) (text : Str) (maxLen overlap : Nat) (row : PageRow) :
    (Images.firstMatch byPage byUri idx uri = some row →
      0 < row.chunk_count → force idx = false →
      Images.pageEffects byPage byUri force idx uri text maxLen overlap = []) ∧
    (byPage idx = some row → 0 < row.chunk_count →
      Pdf.pageEffects byPage idx text = []) := by
  constructor
  · intro hmatch hcount hforce
    have hdone : Images.alreadyDone byPage byUri force idx uri = true := by
      rw [Images.alreadyDone, hmatch]
      simp [hcount, hforce]
    rw [Images.pageEffects, if_pos hdone]
  · intro hmatch hcount
    rw [Pdf.pageEffects, hmatch]
    simp [hcount]

/-- Witness for C5: a concrete already-chunked page is skipped by both
loops. -/
theorem C5_reconciliation_skip_witness :
    Images.pageEffects (fun i => if i = 1 then some ⟨2⟩ else none)
      (fun _ => none) (fun _ => false) 1 [] [] 1200 200 = [] ∧
    Pdf.pageEffects (fun i => if i = 1 then some ⟨2⟩ else none) 1 [] = [] :=
  ⟨(C5_reconciliation_skip (fun i => if i = 1 then some ⟨2⟩ else none)
      (fun _ => none) (fun _ => false) 1 [] [] 1200 200 ⟨2⟩).1
      rfl (by decide) rfl,
   (C5_reconciliation_skip (fun i => if i = 1 then some ⟨2⟩ else none)
      (fun _ => none) (fun _ => false) 1 [] [] 1200 200 ⟨2⟩).2
      rfl (by decide)⟩

/-- Counterexample for claim C5 as stated: a one-page PDF whose single
page already has a stored chunk.  The reconciliation loop skips all its
SQL work, yet the whole run still performs text extraction for that
page, because the PDF script extracts every page before the loop. -/
theorem C5_reconciliation_counterexample :
    Pdf.pageEffects (fun i => if i = 1 then some ⟨1⟩ else none) 1 ['a'] = [] ∧
    Pdf.runEffects [['a']] (fun i => if i = 1 then some ⟨1⟩ else none) =
      [Effect.extractText 1] := ⟨rfl, rfl⟩

end Adamus


namespace Adamus

theorem sqlQueryGo_success (respond : Nat → HttpOutcome) (attempt rem : Nat)
    (b : Str) (h : respond attempt = HttpOutcome.success b) :
    sqlQueryGo respond attempt rem = (Except.ok b, attempt + 1, []) := by
  simp only [sqlQueryGo.eq_def, h]

theorem sqlQueryGo_net (respond : Nat → HttpOutcome) (attempt rem : Nat)
    (h : respond attempt = HttpOutcome.netFailure) :
    sqlQueryGo respond attempt rem =
      (Except.error SqlError.net, attempt + 1, []) := by
  simp only [sqlQueryGo.eq_def, h]

theorem sqlQueryGo_http_zero (respond : Nat → HttpOutcome) (attempt : Nat)
    (c : Nat) (h : respond attempt = HttpOutcome.httpError c) :
    sqlQueryGo respond attempt 0 =
      (Except.error (SqlError.http c), attempt + 1, []) := by
  simp only [sqlQueryGo.eq_def, h]

theorem sqlQueryGo_http_stop (respond : Nat → HttpOutcome) (attempt rem : Nat)
    (c : Nat) (h : respond attempt = HttpOutcome.httpError c)
    (hr : retryCodes c = false) :
    sqlQueryGo respond attempt (rem + 1) =
      (Except.error (SqlError.http c), attempt + 1, []) := by
  rw [sqlQueryGo.eq_def]
  simp only [h, hr]
  rfl

theorem sqlQueryGo_http_retry (respond : Nat → HttpOutcome) (attempt rem : Nat)
    (c : Nat) (h : respond attempt = HttpOutcome.httpError c)
    (hr : retryCodes c = true) :
    sqlQueryGo respond attempt (rem + 1) =
      ((sqlQueryGo respond (attempt + 1) rem).1,
       (sqlQueryGo respond (attempt + 1) rem).2.1,
       (attempt + 1) :: (sqlQueryGo respond (attempt + 1) rem).2.2) := by
  rw [sqlQueryGo.eq_def]
  simp only [h, hr]
  rfl

theorem sqlQueryGo_exhaust (respond : Nat → HttpOutcome) :
    ∀ rem attempt,
      (∀ a, attempt ≤ a → a ≤ attempt + rem →
        ∃ c, respond a = HttpOutcome.httpError c ∧ retryCodes c = true) →
      ∃ c, respond (attempt + rem) = HttpOutcome.httpError c ∧
        sqlQueryGo respond attempt rem =
          (Except.error (SqlError.http c), attempt + rem + 1,
            List.range' (attempt + 1) rem) := by
  intro rem
  induction rem with
  | zero =>
    intro attempt h
    obtain ⟨c, hc, hr⟩ := h attempt (Nat.le_refl _) (by omega)
    refine ⟨c, by simpa using hc, ?_⟩
    rw [sqlQueryGo_http_zero respond attempt c hc]
    simp [List.range']
  | succ rem ih =>
    intro attempt h
    obtain ⟨c, hc, hr⟩ := h attempt (Nat.le_refl _) (by omega)
    obtain ⟨clast, hlast, hgo⟩ :=
      ih (attempt + 1) (fun a ha1 ha2 => h a (by omega) (by omega))
    refine ⟨clast, ?_, ?_⟩
    · rw [show attempt + (rem + 1) = attempt + 1 + rem from by omega]
      exact hlast
    · rw [sqlQueryGo_http_retry respond attempt rem c hc hr, hgo]
      simp only [List.range'_succ, Prod.mk.injEq, true_and]
      constructor <;> first | omega | trivial

/-- Claim C6 (corrected).  sql_query retries, with linearly increasing
backoff multipliers 1, 2, ..., only on the HTTP status codes 401, 429,
500, 502, 503, 504, and propagates the failure when the code is not
retryable or the attempts are exhausted; a success returns at once.
The original claim also lists timeouts among the retried failures;
that part fails: any non-HTTP failure (timeout, connection error) is
not caught by the handler and propagates immediately after a single
attempt, with no sleep (see the counterexample). -/
theorem C6_sql_query_retry (respond : Nat → HttpOutcome) (retries : Nat) :
    (∀ b, respond 0 = HttpOutcome.success b →
      sql_query respond retries = (Except.ok b, 1, [])) ∧
    (∀ c, respond 0 = HttpOutcome.httpError c → retryCodes c = false →
      sql_query respond retries = (Except.error (SqlError.http c), 1, [])) ∧
    ((∀ a, a ≤ retries →
        ∃ c, respond a = HttpOutcome.httpError c ∧ retryCodes c = true) →
      ∃ c, respond retries = HttpOutcome.httpError c ∧
        sql_query respond retries =
          (Except.error (SqlError.http c), retries + 1, List.range' 1 retries)) ∧
    (respond 0 = HttpOutcome.netFailure →
      sql_query respond retries = (Except.error SqlError.net, 1, [])) := by
  refine ⟨?_, ?_, ?_, ?_⟩
  · intro b hb
    rw [sql_query, sqlQueryGo_success respond 0 retries b hb]
  · intro c hc hr
    cases retries with
    | zero => rw [sql_query, sqlQueryGo_http_zero respond 0 c hc]
    | succ n => rw [sql_query, sqlQueryGo_http_stop respond 0 n c hc hr]
  · intro h
    obtain ⟨c, hc, hgo⟩ := sqlQueryGo_exhaust respond retries 0
      (fun a ha1 ha2 => h a (by omega))
    exact ⟨c, by simpa using hc, by rw [sql_query]; simpa using hgo⟩
  · intro hn
    rw [sql_query, sqlQueryGo_net respond 0 retries hn]

/-- Witness for C6: the four behaviours on concrete attempt oracles
with the default retry count 5; the exhausted-retry case sleeps the
multipliers 1 through 5. -/
theorem C6_sql_query_retry_witness :
    sql_query (fun _ => HttpOutcome.success ['b']) 5 = (Except.ok ['b'], 1, []) ∧
    sql_query (fun _ => HttpOutcome.httpError 418) 5 =
      (Except.error (SqlError.http 418), 1, []) ∧
    (∃ c, HttpOutcome.httpError 500 = HttpOutcome.httpError c ∧
      sql_query (fun _ => HttpOutcome.httpError 500) 5 =
        (Except.error (SqlError.http c), 5 + 1, List.range' 1 5)) ∧
    sql_query (fun _ => HttpOutcome.netFailure) 5 =
      (Except.error SqlError.net, 1, []) :=
  ⟨(C6_sql_query_retry (fun _ => HttpOutcome.success ['b']) 5).1 ['b'] rfl,
   (C6_sql_query_retry (fun _ => HttpOutcome.httpError 418) 5).2.1 418 rfl rfl,
   (C6_sql_query_retry (fun _ => HttpOutcome.httpError 500) 5).2.2.1
     (fun _a _ha => ⟨500, rfl, rfl⟩),
   (C6_sql_query_retry (fun _ => HttpOutcome.netFailure) 5).2.2.2 rfl⟩

/-- Counterexample for claim C6 as stated: with every attempt timing
out and the default retry count 5, sql_query makes exactly one attempt
and propagates at once, sleeping no backoff at all, instead of the six
attempts the claim implies for a transient timeout. -/
theorem C6_sql_query_counterexample :
    sql_query (fun _ => HttpOutcome.netFailure) 5 =
      (Except.error SqlError.net, 1, []) ∧ (1 : Nat) ≠ 5 + 1 :=
  ⟨rfl, by decide⟩

end Adamus
